import Mathlib

/-!
Shallow embedding of the unified-diff parser in `src/diff_parser.py`.

Text is modelled as `List Char` internally (Python `str`), with `String`
at the `DiffChunk` boundary.  Python operations are embedded as follows:

* `s.split("\n")`            → `splitChar '\x0a'` (single-character separator split,
                               keeping empty pieces, `"" ↦ [""]`)
* `s.split(" b/")`           → `splitBSlash` (greedy leftmost non-overlapping split)
* `s.startswith(p)`          → `pyStartsWith` (`List.isPrefixOf`)
* `s[1:]`                    → `List.tail`
* `"\n".join(lines)`         → `joinNl`
* `Path(p).suffix.lower()`   → `pathSuffix`/`Char.toLower` (pathlib drops empty and
                               `"."` components; the suffix is the final component's
                               text from its last dot, provided that dot is neither the
                               first nor the last character; `lower` restricted to
                               ASCII, which covers every key of the extension map)
* the regex `^@@ -(\d+)(?:,\d+)? \+(\d+)(?:,\d+)? @@` with `re.match`
                             → `matchHunkHeader` (`\d` restricted to ASCII digits;
                               the regex is deterministic here because after a
                               maximal run of digits no backtracking into
                               `(\d+)` or `(?:,\d+)?` can change the outcome)

Python `int` is modelled as `Int`; the state machine of `parse_diff` is an
explicit fold of `parseStep` over the input lines.
-/

/-- Split a character list at every occurrence of `sep`, keeping empty pieces;
Python `s.split(sep)` for a one-character separator (so `[] ↦ [[]]`). -/
def splitChar (sep : Char) : List Char → List (List Char)
  | [] => [[]]
  | c :: rest =>
    if c = sep then [] :: splitChar sep rest
    else
      match splitChar sep rest with
      | [] => [[c]]
      | l :: ls => (c :: l) :: ls

/-- Python `s.split(" b/")`: greedy leftmost non-overlapping split on the
three-character separator. -/
def splitBSlash : List Char → List (List Char)
  | ' ' :: 'b' :: '/' :: rest => [] :: splitBSlash rest
  | c :: rest =>
    match splitBSlash rest with
    | [] => [[c]]
    | l :: ls => (c :: l) :: ls
  | [] => [[]]

/-- Python `"\n".join(lines)`. -/
def joinNl : List (List Char) → List Char
  | [] => []
  | [l] => l
  | l :: ls => l ++ '\x0a' :: joinNl ls

/-- Python `s.startswith(p)`. -/
def pyStartsWith (l p : List Char) : Bool := p.isPrefixOf l

/-- The table `EXTENSION_MAP` from `diff_parser.py`: file extension → language name. -/
def EXTENSION_MAP : List (List Char × String) :=
  [ (".py".toList, "python")
  , (".js".toList, "javascript")
  , (".ts".toList, "typescript")
  , (".tsx".toList, "typescript")
  , (".jsx".toList, "javascript")
  , (".java".toList, "java")
  , (".go".toList, "go")
  , (".rs".toList, "rust")
  , (".rb".toList, "ruby")
  , (".cpp".toList, "cpp")
  , (".c".toList, "c")
  , (".cs".toList, "csharp")
  ]

/-- The final path component, as `pathlib` computes it: split on `/`, drop empty
and `"."` components, take the last (or empty). -/
def pathName (p : List Char) : List Char :=
  ((splitChar '/' p).filter (fun c => c ≠ [] ∧ c ≠ ['.'])).getLastD []

/-- The pathlib suffix of a name: from the last dot, provided that dot is
neither the first character nor the last. -/
def suffixOfName (name : List Char) : List Char :=
  match name.reverse.findIdx? (fun c => c = '.') with
  | none => []
  | some r =>
    let i := name.length - 1 - r
    if 0 < i ∧ i < name.length - 1 then name.drop i else []

/-- `Path(file_path).suffix` for a path given as a character list. -/
def pathSuffix (p : List Char) : List Char := suffixOfName (pathName p)

/-- The function `detect_language` from `diff_parser.py`: map the lower-cased
extension through `EXTENSION_MAP`, defaulting to `"unknown"`. -/
def detect_language (file_path : String) : String :=
  let ext := (pathSuffix file_path.data).map Char.toLower
  (EXTENSION_MAP.lookup ext).getD "unknown"

/-- The model `DiffChunk` from `models.py`: a parsed chunk of a PR diff. -/
structure DiffChunk where
  file_path : String
  language : String
  old_start : Int
  new_start : Int
  content : String
  added_lines : List String := []
  removed_lines : List String := []
  context_lines : List String := []
deriving Repr, DecidableEq

/-- Strip the prefix `p` from `l`, or fail. -/
def stripPrefixCh : List Char → List Char → Option (List Char)
  | [], l => some l
  | _ :: _, [] => none
  | a :: p, b :: l => if a = b then stripPrefixCh p l else none

/-- Value of a run of ASCII digits, as Python `int` reads it. -/
def digitsToNat (ds : List Char) : Nat :=
  ds.foldl (fun n c => 10 * n + (c.toNat - '0'.toNat)) 0

/-- The optional `(?:,\d+)?` group: consume a comma followed by a maximal
nonempty digit run, else consume nothing. -/
def skipCommaCount (cs : List Char) : List Char :=
  match cs with
  | ',' :: rest =>
    match rest with
    | d :: _ => if d.isDigit then rest.dropWhile Char.isDigit else cs
    | [] => cs
  | _ => cs

/-- The match `HUNK_HEADER_RE.match(line)`: the anchored regex
`^@@ -(\d+)(?:,\d+)? \+(\d+)(?:,\d+)? @@`, returning the two captured numbers. -/
def matchHunkHeader (line : List Char) : Option (Int × Int) :=
  match stripPrefixCh "@@ -".toList line with
  | none => none
  | some r1 =>
    let d1 := r1.takeWhile Char.isDigit
    let r2 := r1.dropWhile Char.isDigit
    if d1 = [] then none
    else
      match stripPrefixCh " +".toList (skipCommaCount r2) with
      | none => none
      | some r4 =>
        let d2 := r4.takeWhile Char.isDigit
        let r5 := r4.dropWhile Char.isDigit
        if d2 = [] then none
        else
          match stripPrefixCh " @@".toList (skipCommaCount r5) with
          | none => none
          | some _ => some ((digitsToNat d1 : Int), (digitsToNat d2 : Int))

/-- The record built by `_build_chunk` once the falsy-path guard has passed:
classify the buffered raw lines by leading marker. -/
def mkChunk (file_path : List Char) (old_start new_start : Int)
    (lines : List (List Char)) : DiffChunk :=
  { file_path := ⟨file_path⟩
    language := detect_language ⟨file_path⟩
    old_start := old_start
    new_start := new_start
    content := ⟨joinNl lines⟩
    added_lines :=
      ((lines.filter fun l =>
          pyStartsWith l "+".toList && !pyStartsWith l "+++".toList).map
        fun l => (⟨l.tail⟩ : String))
    removed_lines :=
      ((lines.filter fun l =>
          pyStartsWith l "-".toList && !pyStartsWith l "---".toList).map
        fun l => (⟨l.tail⟩ : String))
    context_lines :=
      ((lines.filter fun l => pyStartsWith l " ".toList).map
        fun l => (⟨l.tail⟩ : String)) }

/-- The function `_build_chunk` from `diff_parser.py`: `None` on an empty
(falsy) path, otherwise the classified chunk. -/
def buildChunk (file_path : List Char) (old_start new_start : Int)
    (lines : List (List Char)) : Option DiffChunk :=
  if file_path = [] then none
  else some (mkChunk file_path old_start new_start lines)

/-- The mutable locals of `parse_diff`, as an explicit state record. -/
structure ParseState where
  chunks : List DiffChunk
  current_file : Option (List Char)
  current_hunks : List (List Char)
  hunk_old_start : Int
  hunk_new_start : Int
  in_hunk : Bool
deriving Repr, DecidableEq

/-- The initial state of `parse_diff`'s loop. -/
def initState : ParseState :=
  { chunks := [], current_file := none, current_hunks := []
    hunk_old_start := 0, hunk_new_start := 0, in_hunk := false }

/-- Python truthiness of the optional `current_file` string
(`None` and `""` are falsy). -/
def truthyFile : Option (List Char) → Bool
  | none => false
  | some s => !s.isEmpty

/-- Does a chunk pass the language filter (`supported_languages is None or
chunk.language in supported_languages`)? -/
def passesFilter (sup : Option (List String)) (c : DiffChunk) : Bool :=
  match sup with
  | none => true
  | some langs => langs.contains c.language

/-- The flush pattern repeated in `parse_diff`: if a file is active and raw
lines are buffered, build the chunk, append it when it passes the filter, and
clear the buffer; otherwise leave the state untouched. -/
def flushStep (sup : Option (List String)) (s : ParseState) : ParseState :=
  match s.current_file with
  | none => s
  | some f =>
    if f = [] ∨ s.current_hunks = [] then s
    else
      match buildChunk f s.hunk_old_start s.hunk_new_start s.current_hunks with
      | none => { s with current_hunks := [] }
      | some chunk =>
        if passesFilter sup chunk then
          { s with chunks := s.chunks ++ [chunk], current_hunks := [] }
        else { s with current_hunks := [] }

/-- File-path extraction in the `"diff --git"` branch:
`parts = line.split(" b/"); parts[-1] if len(parts) > 1 else None`. -/
def extractPath (line : List Char) : Option (List Char) :=
  let parts := splitBSlash line
  if parts.length > 1 then some (parts.getLastD []) else none

/-- One iteration of `parse_diff`'s loop body on a single line. -/
def parseStep (sup : Option (List String)) (s : ParseState) (line : List Char) :
    ParseState :=
  if pyStartsWith line "diff --git".toList then
    let s' := flushStep sup s
    { s' with current_file := extractPath line, in_hunk := false }
  else if pyStartsWith line "index ".toList || pyStartsWith line "--- ".toList
      || pyStartsWith line "+++ ".toList then
    s
  else if pyStartsWith line "@@".toList then
    let s' := flushStep sup s
    let offs :=
      match matchHunkHeader line with
      | some p => p
      | none => (s'.hunk_old_start, s'.hunk_new_start)
    { s' with hunk_old_start := offs.1, hunk_new_start := offs.2
              current_hunks := s'.current_hunks ++ [line], in_hunk := true }
  else if truthyFile s.current_file && s.in_hunk then
    { s with current_hunks := s.current_hunks ++ [line] }
  else s

/-- The trailing flush after the loop (`# Don't forget the last hunk`). -/
def finishParse (sup : Option (List String)) (s : ParseState) : List DiffChunk :=
  (flushStep sup s).chunks

/-- `parse_diff` on an already-split list of lines. -/
def parse_diff_lines (lines : List (List Char)) (sup : Option (List String)) :
    List DiffChunk :=
  finishParse sup (lines.foldl (parseStep sup) initState)

/-- `parse_diff` from `diff_parser.py`. -/
def parse_diff (raw_diff : String) (sup : Option (List String)) :
    List DiffChunk :=
  parse_diff_lines (splitChar '\x0a' raw_diff.data) sup

/-! Basic facts about the embedded string operations. -/

theorem pyStartsWith_head {l : List Char} {c : Char} {p : List Char}
    (h : pyStartsWith l (c :: p) = true) : l.head? = some c := by
  rw [pyStartsWith, List.isPrefixOf_iff_prefix] at h
  rcases h with ⟨t, ht⟩
  subst ht
  rfl

theorem pyStartsWith_false_of_head {l : List Char} {c d : Char} {p q : List Char}
    (hcd : c ≠ d) (h : pyStartsWith l (c :: p) = true) :
    pyStartsWith l (d :: q) = false := by
  by_contra hq
  rw [Bool.not_eq_false] at hq
  have h1 := pyStartsWith_head h
  have h2 := pyStartsWith_head hq
  rw [h1] at h2
  exact hcd (Option.some.inj h2)

/-- A line starting with the hunk-header marker starts with none of the other
markers checked earlier by the scanner. -/
theorem hunk_marker_facts {l : List Char} (h : pyStartsWith l "@@".toList = true) :
    pyStartsWith l "diff --git".toList = false ∧
    pyStartsWith l "index ".toList = false ∧
    pyStartsWith l "--- ".toList = false ∧
    pyStartsWith l "+++ ".toList = false := by
  refine ⟨?_, ?_, ?_, ?_⟩ <;>
    exact pyStartsWith_false_of_head (by decide) h

/-! Structural lemmas about the flush pattern and the loop body. -/

theorem bool_ne_true {b : Bool} (h : b = false) : ¬b = true := by
  rw [h]
  exact Bool.false_ne_true

theorem or3_eq_false {a b c : Bool} (h1 : a = false) (h2 : b = false)
    (h3 : c = false) : (a || b || c) = false := by
  rw [h1, h2, h3]
  rfl

theorem flushStep_noFile {sup : Option (List String)} {s : ParseState}
    (h : s.current_file = none) : flushStep sup s = s := by
  rw [flushStep, h]

theorem flushStep_nilHunks {sup : Option (List String)} {s : ParseState}
    (h : s.current_hunks = []) : flushStep sup s = s := by
  rw [flushStep]
  cases hf : s.current_file with
  | none => rfl
  | some f =>
    dsimp only
    rw [if_pos (Or.inr h)]

theorem flushStep_run {sup : Option (List String)} {s : ParseState} {p : List Char}
    (hp : s.current_file = some p) (hne : p ≠ []) (hh : s.current_hunks ≠ []) :
    flushStep sup s =
      if passesFilter sup (mkChunk p s.hunk_old_start s.hunk_new_start s.current_hunks) then
        { s with
            chunks := s.chunks ++
              [mkChunk p s.hunk_old_start s.hunk_new_start s.current_hunks]
            current_hunks := [] }
      else { s with current_hunks := [] } := by
  rw [flushStep, hp]
  dsimp only
  rw [if_neg (not_or.mpr ⟨hne, hh⟩)]
  simp only [buildChunk, if_neg hne]

/-- Everything the flush pattern can do to the state: nothing, emit one chunk
and clear the buffer, or just clear the buffer. -/
theorem flushStep_cases (sup : Option (List String)) (s : ParseState) :
    flushStep sup s = s ∨
    (∃ c, flushStep sup s = { s with chunks := s.chunks ++ [c], current_hunks := [] }) ∨
    flushStep sup s = { s with current_hunks := [] } := by
  rw [flushStep]
  cases s.current_file with
  | none => exact Or.inl rfl
  | some f =>
    dsimp only
    split
    · exact Or.inl rfl
    · cases hb : buildChunk f s.hunk_old_start s.hunk_new_start s.current_hunks with
      | none => exact Or.inr (Or.inr rfl)
      | some c =>
        dsimp only
        split
        · exact Or.inr (Or.inl ⟨c, rfl⟩)
        · exact Or.inr (Or.inr rfl)

theorem flushStep_fields (sup : Option (List String)) (s : ParseState) :
    (flushStep sup s).current_file = s.current_file ∧
    (flushStep sup s).hunk_old_start = s.hunk_old_start ∧
    (flushStep sup s).hunk_new_start = s.hunk_new_start ∧
    (flushStep sup s).in_hunk = s.in_hunk := by
  rcases flushStep_cases sup s with h | ⟨c, h⟩ | h <;> rw [h] <;>
    exact ⟨rfl, rfl, rfl, rfl⟩

theorem flushStep_chunks_grow (sup : Option (List String)) (s : ParseState) :
    (flushStep sup s).chunks = s.chunks ∨
    ∃ c, (flushStep sup s).chunks = s.chunks ++ [c] := by
  rcases flushStep_cases sup s with h | ⟨c, h⟩ | h <;> rw [h]
  · exact Or.inl rfl
  · exact Or.inr ⟨c, rfl⟩
  · exact Or.inl rfl

theorem parseStep_fileHeader {sup : Option (List String)} {s : ParseState}
    {line : List Char} (h : pyStartsWith line "diff --git".toList = true) :
    parseStep sup s line =
      { flushStep sup s with current_file := extractPath line, in_hunk := false } := by
  rw [parseStep, if_pos h]

theorem parseStep_meta {sup : Option (List String)} {s : ParseState}
    {line : List Char} (h0 : pyStartsWith line "diff --git".toList = false)
    (h1 : (pyStartsWith line "index ".toList || pyStartsWith line "--- ".toList
      || pyStartsWith line "+++ ".toList) = true) :
    parseStep sup s line = s := by
  rw [parseStep, if_neg (bool_ne_true h0), if_pos h1]

theorem parseStep_hunkHeader {sup : Option (List String)} {s : ParseState}
    {line : List Char} (h : pyStartsWith line "@@".toList = true) :
    parseStep sup s line =
      { flushStep sup s with
          hunk_old_start :=
            (match matchHunkHeader line with
              | some p => p
              | none => ((flushStep sup s).hunk_old_start,
                  (flushStep sup s).hunk_new_start)).1
          hunk_new_start :=
            (match matchHunkHeader line with
              | some p => p
              | none => ((flushStep sup s).hunk_old_start,
                  (flushStep sup s).hunk_new_start)).2
          current_hunks := (flushStep sup s).current_hunks ++ [line]
          in_hunk := true } := by
  obtain ⟨hd, hi, hm, hp⟩ := hunk_marker_facts h
  rw [parseStep, if_neg (bool_ne_true hd),
    if_neg (bool_ne_true (or3_eq_false hi hm hp)), if_pos h]

theorem parseStep_body {sup : Option (List String)} {s : ParseState}
    {line : List Char} (h0 : pyStartsWith line "diff --git".toList = false)
    (h1 : (pyStartsWith line "index ".toList || pyStartsWith line "--- ".toList
      || pyStartsWith line "+++ ".toList) = false)
    (h2 : pyStartsWith line "@@".toList = false)
    (h3 : (truthyFile s.current_file && s.in_hunk) = true) :
    parseStep sup s line = { s with current_hunks := s.current_hunks ++ [line] } := by
  rw [parseStep, if_neg (bool_ne_true h0), if_neg (bool_ne_true h1),
    if_neg (bool_ne_true h2), if_pos h3]

theorem parseStep_ignored {sup : Option (List String)} {s : ParseState}
    {line : List Char} (h0 : pyStartsWith line "diff --git".toList = false)
    (h1 : (pyStartsWith line "index ".toList || pyStartsWith line "--- ".toList
      || pyStartsWith line "+++ ".toList) = false)
    (h2 : pyStartsWith line "@@".toList = false)
    (h3 : (truthyFile s.current_file && s.in_hunk) = false) :
    parseStep sup s line = s := by
  rw [parseStep, if_neg (bool_ne_true h0), if_neg (bool_ne_true h1),
    if_neg (bool_ne_true h2), if_neg (bool_ne_true h3)]

example : detect_language "app.py" = "python" := by decide
example : detect_language "main.js" = "javascript" := by decide
example : detect_language "component.tsx" = "typescript" := by decide
example : detect_language "Main.java" = "java" := by decide
example : detect_language "unknown.xyz" = "unknown" := by decide
example : matchHunkHeader "@@ -10,3 +10,3 @@".toList = some (10, 10) := by decide
example : matchHunkHeader "@@ -5 +6 @@ foo".toList = some (5, 6) := by decide
example : matchHunkHeader "@@ bogus @@".toList = none := by decide
example : parse_diff "" none = [] := by decide

/-- C1: for the seven-line example diff, `parse_diff` with no language filter
returns exactly one `DiffChunk` with file path `app.py`, language `python`,
offsets 10 and 10, added lines `added`, removed lines `removed`, and context
lines `context`. -/
theorem c1_single_hunk_scenario :
    parse_diff "diff --git a/app.py b/app.py\n--- a/app.py\n+++ b/app.py\n@@ -10,3 +10,3 @@\n context\n-removed\n+added" none =
      [{ file_path := "app.py", language := "python", old_start := 10,
         new_start := 10,
         content := "@@ -10,3 +10,3 @@\n context\n-removed\n+added",
         added_lines := ["added"], removed_lines := ["removed"],
         context_lines := ["context"] }] := by decide

/-- C3 counterexample: the second hunk header `@@ oops` is malformed, yet the
chunk built for that hunk carries offsets 5 and 6 inherited from the previous
well-formed header, not the zero-equivalent defaults the claim asserts. -/
theorem c3_counterexample :
    (parse_diff "diff --git a/a.py b/a.py\n@@ -5,1 +6,1 @@\n+x\n@@ oops\n+y\n-z" none).map
        (fun c => (c.content, c.old_start, c.new_start)) =
      [("@@ -5,1 +6,1 @@\n+x", 5, 6), ("@@ oops\n+y\n-z", 5, 6)] := by decide

/-- C4 counterexample: the first input line `@@ -1,1 +1,1 @@` is scanned before
any file header (no file path is active), yet it is buffered, survives the
`diff --git` line (which does not clear the buffer when no file is active), and
becomes the entire content of the first emitted chunk. -/
theorem c4_counterexample :
    (parse_diff "@@ -1,1 +1,1 @@\n+stray\ndiff --git a/app.py b/app.py\n@@ -10,3 +10,3 @@\n+added" none).map
        (fun c => c.content) =
      ["@@ -1,1 +1,1 @@", "@@ -10,3 +10,3 @@\n+added"] := by decide

/-- C5 counterexample: a hunk whose header never matches the offset pattern is
emitted with `old_start = 0` and `new_start = 0`, so the emitted offsets are
not always positive (at least 1) as the claim asserts. -/
theorem c5_counterexample :
    (parse_diff "diff --git a/x.py b/x.py\n@@ broken\n+a" none).map
        (fun c => (c.old_start, c.new_start)) = [(0, 0)] := by decide

/-- C9: `parse_diff` is a total function (it is a Lean `def`, defined for every
input string and allow-list); the empty input yields the empty list for every
allow-list, a missing file path makes `_build_chunk` return no chunk and makes
a file-less hunk disappear from the output, and a malformed hunk header
degrades to the zero sentinel offsets. -/
theorem c9_total_and_degrading :
    parse_diff "" none = [] ∧
    (∀ L : List String, parse_diff "" (some L) = []) ∧
    (∀ (o n : Int) (ls : List (List Char)), buildChunk [] o n ls = none) ∧
    parse_diff "@@ -1,1 +1,1 @@\n+a" none = [] ∧
    (parse_diff "diff --git a/x.py b/x.py\n@@ broken\n+a" none).map
        (fun c => (c.old_start, c.new_start)) = [(0, 0)] :=
  ⟨by decide, fun L => rfl, fun o n ls => rfl, by decide, by decide⟩

/-- C4 (amended): a line scanned while no file path is active that does not
start with `@@` neither emits a chunk nor is buffered: the scanner step leaves
both the emitted-chunk list and the hunk buffer unchanged.  (Lines starting
with `@@` are the exception refuted separately: they are buffered even with no
active file and can surface in a later chunk.) -/
theorem c4_no_file_no_contribution (sup : Option (List String)) (s : ParseState)
    (line : List Char) (hf : s.current_file = none)
    (h : pyStartsWith line "@@".toList = false) :
    (parseStep sup s line).chunks = s.chunks ∧
    (parseStep sup s line).current_hunks = s.current_hunks := by
  by_cases hd : pyStartsWith line "diff --git".toList = true
  · rw [parseStep_fileHeader hd, flushStep_noFile hf]
    exact ⟨rfl, rfl⟩
  · have hd' : pyStartsWith line "diff --git".toList = false :=
      Bool.eq_false_iff.mpr hd
    by_cases hm : (pyStartsWith line "index ".toList
        || pyStartsWith line "--- ".toList
        || pyStartsWith line "+++ ".toList) = true
    · rw [parseStep_meta hd' hm]
      exact ⟨rfl, rfl⟩
    · have hm' : (pyStartsWith line "index ".toList
          || pyStartsWith line "--- ".toList
          || pyStartsWith line "+++ ".toList) = false := Bool.eq_false_iff.mpr hm
      have h3 : (truthyFile s.current_file && s.in_hunk) = false := by
        rw [hf]
        rfl
      rw [parseStep_ignored hd' hm' h h3]
      exact ⟨rfl, rfl⟩

/-- C4 witness: the body line `+stray` scanned from the initial state (no file
active) changes neither the chunk list nor the buffer. -/
theorem c4_no_file_no_contribution_witness :
    (parseStep none initState "+stray".toList).chunks = initState.chunks ∧
    (parseStep none initState "+stray".toList).current_hunks
      = initState.current_hunks :=
  c4_no_file_no_contribution none initState "+stray".toList rfl (by decide)

/-- C3 (amended): a hunk-header line whose offset section does not match the
pattern is tolerated: the step keeps the previously pending start offsets
(which are the zero defaults when no earlier header matched), buffers the
header, and marks the inside-hunk state; and on a concrete diff whose only
header is malformed the chunk is emitted with the zero default offsets and its
body lines still correctly classified. -/
theorem c3_malformed_header_tolerated (sup : Option (List String))
    (s : ParseState) (line : List Char)
    (hl : pyStartsWith line "@@".toList = true)
    (hm : matchHunkHeader line = none) :
    ((parseStep sup s line).hunk_old_start = s.hunk_old_start ∧
     (parseStep sup s line).hunk_new_start = s.hunk_new_start ∧
     (parseStep sup s line).current_hunks
        = (flushStep sup s).current_hunks ++ [line] ∧
     (parseStep sup s line).in_hunk = true) ∧
    (parse_diff "diff --git a/x.py b/x.py\n@@ broken\n+a\n-b\n c" none).map
        (fun c => (c.old_start, c.new_start, c.added_lines, c.removed_lines,
          c.context_lines)) =
      [(0, 0, ["a"], ["b"], ["c"])] := by
  refine ⟨?_, by decide⟩
  rw [parseStep_hunkHeader hl, hm]
  obtain ⟨-, h2, h3, -⟩ := flushStep_fields sup s
  exact ⟨h2, h3, rfl, rfl⟩

/-- C3 witness: the step on the malformed header `@@ oops` from the initial
state keeps the zero pending offsets. -/
theorem c3_malformed_header_tolerated_witness :
    (parseStep none initState "@@ oops".toList).hunk_old_start
      = initState.hunk_old_start :=
  (c3_malformed_header_tolerated none initState "@@ oops".toList (by decide)
    (by decide)).1.1

/-! Spec-side line classifiers for the chunk builder: a body line is classified
by its leading marker character, except that the three-character metadata
markers are excluded. -/

theorem pyStartsWith_one (l : List Char) (c : Char) :
    pyStartsWith l [c] = (l.head? == some c) := by
  cases l <;> simp [pyStartsWith, List.isPrefixOf, Bool.beq_comm]

theorem pyStartsWith_three (l : List Char) (a b c : Char) :
    pyStartsWith l [a, b, c] = (l.take 3 == [a, b, c]) := by
  rcases l with _ | ⟨x, _ | ⟨y, _ | ⟨z, t⟩⟩⟩ <;>
    simp [pyStartsWith, List.isPrefixOf, Bool.beq_comm, List.take, Bool.and_assoc]

/-- Spec classifier: an added body line starts with `+` and is not a `+++`
metadata marker line. -/
def isAddedLine (l : List Char) : Bool :=
  l.head? == some '+' && l.take 3 != "+++".toList

/-- Spec classifier: a removed body line starts with `-` and is not a `---`
metadata marker line. -/
def isRemovedLine (l : List Char) : Bool :=
  l.head? == some '-' && l.take 3 != "---".toList

/-- Spec classifier: a context body line starts with a space. -/
def isContextLine (l : List Char) : Bool :=
  l.head? == some ' '

theorem added_pred_eq :
    (fun l => pyStartsWith l "+".toList && !pyStartsWith l "+++".toList)
      = isAddedLine := by
  funext l
  rw [isAddedLine, show "+".toList = ['+'] from rfl,
    show "+++".toList = ['+', '+', '+'] from rfl, pyStartsWith_one,
    pyStartsWith_three]
  rfl

theorem removed_pred_eq :
    (fun l => pyStartsWith l "-".toList && !pyStartsWith l "---".toList)
      = isRemovedLine := by
  funext l
  rw [isRemovedLine, show "-".toList = ['-'] from rfl,
    show "---".toList = ['-', '-', '-'] from rfl, pyStartsWith_one,
    pyStartsWith_three]
  rfl

theorem context_pred_eq :
    (fun l => pyStartsWith l " ".toList) = isContextLine := by
  funext l
  rw [isContextLine, show " ".toList = [' '] from rfl, pyStartsWith_one]

/-- C2: every chunk built by `_build_chunk` classifies its buffered raw lines,
in buffer order, exactly by leading marker: lines starting with `+` that are
not `+++` metadata markers appear stripped of their first character in
`added_lines`, lines starting with `-` that are not `---` markers appear
stripped in `removed_lines`, lines starting with a space appear stripped in
`context_lines`, and the content field is the raw lines joined verbatim with
newlines, so every other buffered line lands in none of the three lists yet is
preserved inside `content`. -/
theorem c2_chunk_classification (fp : List Char) (o n : Int)
    (lines : List (List Char)) (c : DiffChunk)
    (h : buildChunk fp o n lines = some c) :
    c.added_lines
        = (lines.filter isAddedLine).map (fun l => (⟨l.tail⟩ : String)) ∧
    c.removed_lines
        = (lines.filter isRemovedLine).map (fun l => (⟨l.tail⟩ : String)) ∧
    c.context_lines
        = (lines.filter isContextLine).map (fun l => (⟨l.tail⟩ : String)) ∧
    c.content = (⟨joinNl lines⟩ : String) := by
  rw [buildChunk] at h
  by_cases hfp : fp = []
  · rw [if_pos hfp] at h
    exact absurd h (Option.noConfusion)
  · rw [if_neg hfp] at h
    obtain rfl : mkChunk fp o n lines = c := Option.some.inj h
    refine ⟨?_, ?_, ?_, rfl⟩
    · rw [mkChunk]
      dsimp only
      rw [added_pred_eq]
    · rw [mkChunk]
      dsimp only
      rw [removed_pred_eq]
    · rw [mkChunk]
      dsimp only
      rw [context_pred_eq]

/-- C2 witness: the chunk built from the four-line hunk of the repository's
own test classifies `+added`, `-removed`, and ` context` as expected. -/
theorem c2_chunk_classification_witness :
    (mkChunk "test.py".toList 10 10
        ["@@ -10,3 +10,3 @@".toList, " context".toList, "-removed".toList,
          "+added".toList]).added_lines
      = (["@@ -10,3 +10,3 @@".toList, " context".toList, "-removed".toList,
          "+added".toList].filter isAddedLine).map
          (fun l => (⟨l.tail⟩ : String)) :=
  (c2_chunk_classification "test.py".toList 10 10 _ _ rfl).1

/-! Nonnegativity of the start offsets. -/

theorem matchHunkHeader_nonneg {line : List Char} {o n : Int}
    (h : matchHunkHeader line = some (o, n)) : 0 ≤ o ∧ 0 ≤ n := by
  rw [matchHunkHeader] at h
  dsimp only at h
  repeat' split at h
  all_goals try exact absurd h Option.noConfusion
  have h' := Option.some.inj h
  rw [Prod.mk.injEq] at h'
  obtain ⟨h1, h2⟩ := h'
  rw [← h1, ← h2]
  exact ⟨Int.natCast_nonneg _, Int.natCast_nonneg _⟩

/-- The invariant: every emitted chunk and the pending offsets are
nonnegative. -/
def OffsetsOk (s : ParseState) : Prop :=
  (∀ c ∈ s.chunks, 0 ≤ c.old_start ∧ 0 ≤ c.new_start) ∧
  0 ≤ s.hunk_old_start ∧ 0 ≤ s.hunk_new_start

theorem flushStep_offsetsOk (sup : Option (List String)) (s : ParseState)
    (h : OffsetsOk s) : OffsetsOk (flushStep sup s) := by
  rw [flushStep]
  cases s.current_file with
  | none => exact h
  | some f =>
    dsimp only
    split
    · exact h
    · cases hb : buildChunk f s.hunk_old_start s.hunk_new_start s.current_hunks with
      | none => exact ⟨h.1, h.2⟩
      | some c =>
        have hc : 0 ≤ c.old_start ∧ 0 ≤ c.new_start := by
          rw [buildChunk] at hb
          by_cases hf : f = []
          · rw [if_pos hf] at hb
            exact absurd hb Option.noConfusion
          · rw [if_neg hf] at hb
            rw [← Option.some.inj hb]
            exact h.2
        dsimp only
        split
        · refine ⟨?_, h.2⟩
          intro x hx
          rcases List.mem_append.mp hx with hx | hx
          · exact h.1 x hx
          · rw [List.mem_singleton.mp hx]
            exact hc
        · exact ⟨h.1, h.2⟩

theorem parseStep_offsetsOk (sup : Option (List String)) (s : ParseState)
    (line : List Char) (h : OffsetsOk s) : OffsetsOk (parseStep sup s line) := by
  have hflush := flushStep_offsetsOk sup s h
  by_cases hd : pyStartsWith line "diff --git".toList = true
  · rw [parseStep_fileHeader hd]
    exact hflush
  · have hd' := Bool.eq_false_iff.mpr hd
    by_cases hm : (pyStartsWith line "index ".toList
        || pyStartsWith line "--- ".toList
        || pyStartsWith line "+++ ".toList) = true
    · rw [parseStep_meta hd' hm]
      exact h
    · have hm' := Bool.eq_false_iff.mpr hm
      by_cases hh : pyStartsWith line "@@".toList = true
      · rw [parseStep_hunkHeader hh]
        refine ⟨hflush.1, ?_⟩
        cases hmm : matchHunkHeader line with
        | none => exact hflush.2
        | some p =>
          obtain ⟨o, n⟩ := p
          exact matchHunkHeader_nonneg hmm
      · have hh' := Bool.eq_false_iff.mpr hh
        by_cases hb : (truthyFile s.current_file && s.in_hunk) = true
        · rw [parseStep_body hd' hm' hh' hb]
          exact h
        · rw [parseStep_ignored hd' hm' hh' (Bool.eq_false_iff.mpr hb)]
          exact h

theorem foldl_offsetsOk (sup : Option (List String)) (lines : List (List Char))
    (s : ParseState) (h : OffsetsOk s) :
    OffsetsOk (lines.foldl (parseStep sup) s) := by
  induction lines generalizing s with
  | nil => exact h
  | cons l ls ih => exact ih _ (parseStep_offsetsOk sup s l h)

/-- C5 (amended): in every `DiffChunk` emitted by `parse_diff`, for any input
string and any allow-list, `old_start` and `new_start` are nonnegative
integers.  (They are not always positive: the zero sentinel is emitted for
hunks whose header never matched, as the counterexample shows.) -/
theorem c5_offsets_nonneg (raw : String) (sup : Option (List String))
    (c : DiffChunk) (hc : c ∈ parse_diff raw sup) :
    0 ≤ c.old_start ∧ 0 ≤ c.new_start := by
  have h0 : OffsetsOk initState :=
    ⟨fun x hx => absurd hx (List.not_mem_nil x), le_refl 0, le_refl 0⟩
  have h1 := foldl_offsetsOk sup (splitChar '\x0a' raw.data) initState h0
  exact (flushStep_offsetsOk sup _ h1).1 c hc

/-- C5 witness: the chunk parsed from the example diff has nonnegative
offsets. -/
theorem c5_offsets_nonneg_witness :
    (0 : Int) ≤ (10 : Int) ∧ (0 : Int) ≤ (10 : Int) :=
  c5_offsets_nonneg
    "diff --git a/app.py b/app.py\n--- a/app.py\n+++ b/app.py\n@@ -10,3 +10,3 @@\n context\n-removed\n+added"
    none
    { file_path := "app.py", language := "python", old_start := 10,
      new_start := 10,
      content := "@@ -10,3 +10,3 @@\n context\n-removed\n+added",
      added_lines := ["added"], removed_lines := ["removed"],
      context_lines := ["context"] }
    (by decide)

/-! The language filter commutes with parsing: the scanner state evolves
identically with and without an allow-list, except that appended chunks are
gated by the filter. -/

/-- Replace the emitted-chunk list by its filtered version. -/
def restrictChunks (L : List String) (s : ParseState) : ParseState :=
  { s with chunks := s.chunks.filter (passesFilter (some L)) }

theorem flushStep_guardFail {sup : Option (List String)} {s : ParseState}
    {f : List Char} (hp : s.current_file = some f)
    (hq : f = [] ∨ s.current_hunks = []) : flushStep sup s = s := by
  rw [flushStep, hp]
  dsimp only
  rw [if_pos hq]

theorem flushStep_restrict (L : List String) (s : ParseState) :
    flushStep (some L) (restrictChunks L s)
      = restrictChunks L (flushStep none s) := by
  cases hf : s.current_file with
  | none =>
    rw [flushStep_noFile (s := restrictChunks L s) hf, flushStep_noFile hf]
  | some f =>
    by_cases hq : f = [] ∨ s.current_hunks = []
    · rw [flushStep_guardFail (s := restrictChunks L s) hf hq,
        flushStep_guardFail hf hq]
    · push_neg at hq
      obtain ⟨hne, hh⟩ := hq
      rw [flushStep_run (s := restrictChunks L s) hf hne hh,
        flushStep_run hf hne hh]
      rw [if_pos (show passesFilter none _ = true from rfl)]
      dsimp only [restrictChunks]
      by_cases hp : passesFilter (some L)
          (mkChunk f s.hunk_old_start s.hunk_new_start s.current_hunks) = true
      · rw [if_pos hp, List.filter_append]
        simp [hp]
      · rw [if_neg hp, List.filter_append]
        simp [Bool.eq_false_iff.mpr hp]

theorem parseStep_restrict (L : List String) (s : ParseState) (line : List Char) :
    parseStep (some L) (restrictChunks L s) line
      = restrictChunks L (parseStep none s line) := by
  by_cases hd : pyStartsWith line "diff --git".toList = true
  · rw [parseStep_fileHeader hd, parseStep_fileHeader hd, flushStep_restrict]
    rfl
  · have hd' := Bool.eq_false_iff.mpr hd
    by_cases hm : (pyStartsWith line "index ".toList
        || pyStartsWith line "--- ".toList
        || pyStartsWith line "+++ ".toList) = true
    · rw [parseStep_meta hd' hm, parseStep_meta hd' hm]
    · have hm' := Bool.eq_false_iff.mpr hm
      by_cases hh : pyStartsWith line "@@".toList = true
      · rw [parseStep_hunkHeader hh, parseStep_hunkHeader hh, flushStep_restrict]
        rfl
      · have hh' := Bool.eq_false_iff.mpr hh
        by_cases hb : (truthyFile s.current_file && s.in_hunk) = true
        · rw [parseStep_body hd' hm' hh' hb,
            parseStep_body hd' hm' hh' (by rw [restrictChunks]; exact hb)]
          rfl
        · have hb' := Bool.eq_false_iff.mpr hb
          rw [parseStep_ignored hd' hm' hh' hb',
            parseStep_ignored hd' hm' hh' (by rw [restrictChunks]; exact hb')]

theorem foldl_restrict (L : List String) (lines : List (List Char))
    (s : ParseState) :
    lines.foldl (parseStep (some L)) (restrictChunks L s)
      = restrictChunks L (lines.foldl (parseStep none) s) := by
  induction lines generalizing s with
  | nil => rfl
  | cons l ls ih => rw [List.foldl_cons, List.foldl_cons, parseStep_restrict, ih]

/-- Parsing with an allow-list equals parsing without one followed by
filtering the output. -/
theorem parse_diff_filter_eq (raw : String) (L : List String) :
    parse_diff raw (some L)
      = (parse_diff raw none).filter (passesFilter (some L)) := by
  rw [parse_diff, parse_diff, parse_diff_lines, parse_diff_lines]
  have h0 : restrictChunks L initState = initState := rfl
  rw [finishParse, finishParse, ← h0, foldl_restrict, flushStep_restrict]
  rfl

/-- C7: an allow-list disjoint from the language tags of the unfiltered output
yields the empty sequence, and an allow-list containing every such tag yields
exactly the unfiltered output. -/
theorem c7_filter_disjoint_and_superset (raw : String) (L : List String) :
    ((∀ c ∈ parse_diff raw none, c.language ∉ L) →
      parse_diff raw (some L) = []) ∧
    ((∀ c ∈ parse_diff raw none, c.language ∈ L) →
      parse_diff raw (some L) = parse_diff raw none) := by
  constructor <;> intro h <;> rw [parse_diff_filter_eq]
  · refine List.filter_eq_nil_iff.mpr fun c hc => ?_
    rw [passesFilter]
    exact fun hcon => h c hc (List.elem_iff.mp hcon)
  · refine List.filter_eq_self.mpr fun c hc => ?_
    rw [passesFilter]
    exact List.elem_iff.mpr (h c hc)

/-- C7 witness: for a two-file python and ruby diff, the allow-list containing
both tags reproduces the unfiltered output. -/
theorem c7_filter_disjoint_and_superset_witness :
    parse_diff "diff --git a/app.py b/app.py\n@@ -1,1 +1,1 @@\n-old\n+new\ndiff --git a/test.rb b/test.rb\n@@ -1,1 +1,1 @@\n-old\n+new"
        (some ["python", "ruby"])
      = parse_diff "diff --git a/app.py b/app.py\n@@ -1,1 +1,1 @@\n-old\n+new\ndiff --git a/test.rb b/test.rb\n@@ -1,1 +1,1 @@\n-old\n+new"
        none :=
  (c7_filter_disjoint_and_superset _ ["python", "ruby"]).2 (by decide)

/-! Well-formed multi-file diffs: N files, each introduced by a `diff --git`
header carrying a new-side path, followed by one hunk header and body lines
that are neither file headers nor hunk headers. -/

/-- One well-formed file section of a diff: its header line, the new-side path
the header carries, the file-level metadata lines standing between the file
header and the hunk (`index `, `--- `, `+++ `, and the like), its single hunk
header, and the hunk body lines. -/
structure FileBlock where
  header : List Char
  path : List Char
  pre : List (List Char)
  hunkHeader : List Char
  body : List (List Char)

/-- The raw lines of a file section. -/
def FileBlock.lines (b : FileBlock) : List (List Char) :=
  b.header :: (b.pre ++ b.hunkHeader :: b.body)

/-- Well-formedness of a file section: the header starts with `diff --git` and
its new-side path extraction yields the nonempty `path`; the metadata prelude
lines are neither file headers nor hunk headers (the scanner skips the
`index `, `--- `, `+++ ` markers and ignores any other pre-hunk line); the
hunk header starts with `@@`; no body line starts with `diff --git` or `@@`. -/
def FileBlock.Wf (b : FileBlock) : Prop :=
  pyStartsWith b.header "diff --git".toList = true ∧
  extractPath b.header = some b.path ∧
  b.path ≠ [] ∧
  (∀ l ∈ b.pre, pyStartsWith l "diff --git".toList = false ∧
    pyStartsWith l "@@".toList = false) ∧
  pyStartsWith b.hunkHeader "@@".toList = true ∧
  ∀ l ∈ b.body, pyStartsWith l "diff --git".toList = false ∧
    pyStartsWith l "@@".toList = false


/-- A body line is buffered unless it carries one of the skipped file-metadata
markers. -/
def nonMeta (l : List Char) : Bool :=
  !(pyStartsWith l "index ".toList || pyStartsWith l "--- ".toList
    || pyStartsWith l "+++ ".toList)

theorem bodyFoldEq (sup : Option (List String)) (body : List (List Char))
    (s : ParseState) (htr : truthyFile s.current_file = true)
    (hin : s.in_hunk = true)
    (hall : ∀ l ∈ body, pyStartsWith l "diff --git".toList = false ∧
      pyStartsWith l "@@".toList = false) :
    body.foldl (parseStep sup) s
      = { s with current_hunks := s.current_hunks ++ body.filter nonMeta } := by
  induction body generalizing s with
  | nil => simp
  | cons l ls ih =>
    obtain ⟨hld, hlh⟩ := hall l (List.mem_cons_self l ls)
    have hall' : ∀ x ∈ ls, pyStartsWith x "diff --git".toList = false ∧
        pyStartsWith x "@@".toList = false :=
      fun x hx => hall x (List.mem_cons_of_mem l hx)
    rw [List.foldl_cons]
    by_cases hm : (pyStartsWith l "index ".toList
        || pyStartsWith l "--- ".toList
        || pyStartsWith l "+++ ".toList) = true
    · rw [parseStep_meta hld hm, ih s htr hin hall']
      have : nonMeta l = false := by rw [nonMeta, hm]; rfl
      rw [List.filter_cons_of_neg (by rw [this]; exact Bool.false_ne_true)]
    · have htrb : (truthyFile s.current_file && s.in_hunk) = true := by
        rw [htr, hin]
        rfl
      rw [parseStep_body hld (Bool.eq_false_iff.mpr hm) hlh htrb]
      rw [ih { s with current_hunks := s.current_hunks ++ [l] } htr hin hall']
      have : nonMeta l = true := by
        rw [nonMeta, Bool.eq_false_iff.mpr hm]
        rfl
      rw [List.filter_cons_of_pos this]
      simp

theorem stepHeaderEq {s : ParseState} {p : List Char}
    (hp : s.current_file = some p) (hne : p ≠ []) (hh : s.current_hunks ≠ [])
    {line : List Char} (hl : pyStartsWith line "diff --git".toList = true) :
    parseStep none s line =
      { chunks := s.chunks ++
          [mkChunk p s.hunk_old_start s.hunk_new_start s.current_hunks]
        current_file := extractPath line
        current_hunks := []
        hunk_old_start := s.hunk_old_start
        hunk_new_start := s.hunk_new_start
        in_hunk := false } := by
  rw [parseStep_fileHeader hl, flushStep_run hp hne hh,
    if_pos (show passesFilter none _ = true from rfl)]

theorem stepHunkNilBufferEq {s : ParseState} (hs : s.current_hunks = [])
    {line : List Char} (hl : pyStartsWith line "@@".toList = true) :
    parseStep none s line =
      { s with
          hunk_old_start :=
            (match matchHunkHeader line with
              | some q => q
              | none => (s.hunk_old_start, s.hunk_new_start)).1
          hunk_new_start :=
            (match matchHunkHeader line with
              | some q => q
              | none => (s.hunk_old_start, s.hunk_new_start)).2
          current_hunks := [line]
          in_hunk := true } := by
  rw [parseStep_hunkHeader hl, flushStep_nilHunks hs, hs]
  rfl

/-- Outside a hunk, every line that is neither a file header nor a hunk header
leaves the scanner state untouched: the metadata markers are skipped and any
other line fails the inside-hunk test. -/
theorem preFold (sup : Option (List String)) (pre : List (List Char)) :
    ∀ s : ParseState, s.in_hunk = false →
    (∀ l ∈ pre, pyStartsWith l "diff --git".toList = false ∧
      pyStartsWith l "@@".toList = false) →
    pre.foldl (parseStep sup) s = s := by
  induction pre with
  | nil => intro s _ _; rfl
  | cons l ls ih =>
    intro s hin hall
    obtain ⟨hld, hlh⟩ := hall l (List.mem_cons_self l ls)
    have hall' : ∀ x ∈ ls, pyStartsWith x "diff --git".toList = false ∧
        pyStartsWith x "@@".toList = false :=
      fun x hx => hall x (List.mem_cons_of_mem l hx)
    rw [List.foldl_cons]
    by_cases hm : (pyStartsWith l "index ".toList
        || pyStartsWith l "--- ".toList
        || pyStartsWith l "+++ ".toList) = true
    · rw [parseStep_meta hld hm]
      exact ih s hin hall'
    · have h3 : (truthyFile s.current_file && s.in_hunk) = false := by
        rw [hin, Bool.and_false]
      rw [parseStep_ignored hld (Bool.eq_false_iff.mpr hm) hlh h3]
      exact ih s hin hall'

theorem truthyFile_some_ne {p : List Char} (h : p ≠ []) :
    truthyFile (some p) = true := by
  cases p with
  | nil => exact absurd rfl h
  | cons a t => rfl

theorem processBlock {b : FileBlock} (hb : b.Wf) {s : ParseState}
    {p : List Char} (hp : s.current_file = some p) (hne : p ≠ [])
    (hh : s.current_hunks ≠ []) :
    ∃ t : ParseState,
      b.lines.foldl (parseStep none) s = t ∧
      t.chunks = s.chunks ++
        [mkChunk p s.hunk_old_start s.hunk_new_start s.current_hunks] ∧
      t.current_file = some b.path ∧ t.current_hunks ≠ [] := by
  obtain ⟨hdr, hpath, hpne, hpre, hhh, hbody⟩ := hb
  refine ⟨b.lines.foldl (parseStep none) s, rfl, ?_, ?_, ?_⟩ <;>
    · rw [FileBlock.lines, List.foldl_cons, stepHeaderEq hp hne hh hdr, hpath,
        List.foldl_append, preFold none b.pre, List.foldl_cons,
        stepHunkNilBufferEq, bodyFoldEq]
      all_goals first
        | rfl
        | exact hbody
        | exact hhh
        | exact hpre
        | exact truthyFile_some_ne hpne
        | simp

theorem processBlockInit {b : FileBlock} (hb : b.Wf) :
    ∃ t : ParseState,
      b.lines.foldl (parseStep none) initState = t ∧
      t.chunks = [] ∧ t.current_file = some b.path ∧ t.current_hunks ≠ [] := by
  obtain ⟨hdr, hpath, hpne, hpre, hhh, hbody⟩ := hb
  refine ⟨b.lines.foldl (parseStep none) initState, rfl, ?_, ?_, ?_⟩ <;>
    · rw [FileBlock.lines, List.foldl_cons, parseStep_fileHeader hdr,
        flushStep_noFile (s := initState) rfl, hpath, List.foldl_append,
        preFold none b.pre, List.foldl_cons, stepHunkNilBufferEq, bodyFoldEq]
      all_goals first
        | rfl
        | exact hbody
        | exact hhh
        | exact hpre
        | exact truthyFile_some_ne hpne
        | simp

theorem chunksAux (blocks : List FileBlock) (hw : ∀ b ∈ blocks, b.Wf) :
    ∀ (s : ParseState) (p : List Char), s.current_file = some p → p ≠ [] →
    s.current_hunks ≠ [] →
    (finishParse none
        (((blocks.map FileBlock.lines).flatten).foldl (parseStep none) s)).map
        (fun c => c.file_path)
      = s.chunks.map (fun c => c.file_path) ++
        (⟨p⟩ : String) :: blocks.map (fun b => (⟨b.path⟩ : String)) := by
  induction blocks with
  | nil =>
    intro s p hp hne hh
    rw [List.map_nil, List.flatten_nil, List.foldl_nil, finishParse,
      flushStep_run hp hne hh, if_pos (show passesFilter none _ = true from rfl)]
    simp [mkChunk]
  | cons b bs ih =>
    intro s p hp hne hh
    rw [List.map_cons, List.flatten_cons, List.foldl_append]
    obtain ⟨t, ht, htc, htf, hth⟩ :=
      processBlock (hw b (List.mem_cons_self b bs)) hp hne hh
    have hbne : b.path ≠ [] := (hw b (List.mem_cons_self b bs)).2.2.1
    rw [ht, ih (fun x hx => hw x (List.mem_cons_of_mem b hx)) t b.path htf hbne
      hth, htc]
    simp [mkChunk]

/-- C6: a diff consisting of N well-formed file sections, each with its
file-level metadata lines followed by exactly one hunk, parses with no
language filter into exactly N chunks whose file paths are the sections'
new-side paths in input order (file order). -/
theorem c6_files_in_order (blocks : List FileBlock)
    (hw : ∀ b ∈ blocks, b.Wf) :
    (parse_diff_lines ((blocks.map FileBlock.lines).flatten) none).map
        (fun c => c.file_path)
      = blocks.map (fun b => (⟨b.path⟩ : String)) := by
  cases blocks with
  | nil => rfl
  | cons b bs =>
    rw [parse_diff_lines, List.map_cons, List.flatten_cons, List.foldl_append]
    obtain ⟨t, ht, htc, htf, hth⟩ :=
      processBlockInit (hw b (List.mem_cons_self b bs))
    have hbne : b.path ≠ [] := (hw b (List.mem_cons_self b bs)).2.2.1
    rw [ht, chunksAux bs (fun x hx => hw x (List.mem_cons_of_mem b hx)) t
      b.path htf hbne hth, htc]
    rfl

instance (b : FileBlock) : Decidable b.Wf := by
  rw [FileBlock.Wf]
  infer_instance

/-- C6 witness: two concrete well-formed file sections parse into exactly two
chunks, in file order. -/
theorem c6_files_in_order_witness :
    (parse_diff_lines
        (([⟨"diff --git a/app.py b/app.py".toList, "app.py".toList,
            ["--- a/app.py".toList, "+++ b/app.py".toList],
            "@@ -1,1 +1,1 @@".toList, ["-old".toList, "+new".toList]⟩,
          ⟨"diff --git a/test.rb b/test.rb".toList, "test.rb".toList,
            ["index 1234567..89abcde 100644".toList, "--- a/test.rb".toList,
              "+++ b/test.rb".toList],
            "@@ -1,1 +1,1 @@".toList,
            ["-old".toList, "+new".toList]⟩].map FileBlock.lines).flatten)
        none).map (fun c => c.file_path)
      = ["app.py", "test.rb"] :=
  c6_files_in_order _ (by decide)

/-! Appending a trailing newline to an input that ends inside a hunk body. -/

theorem splitChar_ne_nil (sep : Char) (cs : List Char) :
    splitChar sep cs ≠ [] := by
  cases cs with
  | nil => exact fun h => List.noConfusion h
  | cons c rest =>
    rw [splitChar]
    by_cases h : c = sep
    · rw [if_pos h]
      exact fun h => List.noConfusion h
    · rw [if_neg h]
      cases hs : splitChar sep rest with
      | nil => exact fun h => List.noConfusion h
      | cons l ls => exact fun h => List.noConfusion h

theorem splitChar_cons (sep c : Char) (rest : List Char) :
    splitChar sep (c :: rest)
      = if c = sep then [] :: splitChar sep rest
        else
          match splitChar sep rest with
          | [] => [[c]]
          | l :: ls => (c :: l) :: ls := rfl

theorem splitChar_append_sep (sep : Char) (cs : List Char) :
    splitChar sep (cs ++ [sep]) = splitChar sep cs ++ [[]] := by
  induction cs with
  | nil => simp [splitChar]
  | cons c rest ih =>
    rw [List.cons_append, splitChar_cons, splitChar_cons]
    by_cases h : c = sep
    · rw [if_pos h, if_pos h, ih]
      rfl
    · rw [if_neg h, if_neg h, ih]
      cases hs : splitChar sep rest with
      | nil => exact absurd hs (splitChar_ne_nil sep rest)
      | cons l ls => rfl

theorem joinNl_append_empty (ls : List (List Char)) (h : ls ≠ []) :
    joinNl (ls ++ [[]]) = joinNl ls ++ ['\x0a'] := by
  induction ls with
  | nil => exact absurd rfl h
  | cons l rest ih =>
    cases rest with
    | nil => rfl
    | cons l2 rest2 =>
      have h2 : l2 :: rest2 ≠ [] := fun hc => List.noConfusion hc
      have step1 : joinNl ((l :: l2 :: rest2) ++ [[]])
          = l ++ '\x0a' :: joinNl ((l2 :: rest2) ++ [[]]) := rfl
      rw [step1, ih h2]
      simp [joinNl]

theorem mkChunk_append_empty (p : List Char) (o n : Int)
    (ls : List (List Char)) (h : ls ≠ []) :
    mkChunk p o n (ls ++ [[]])
      = { mkChunk p o n ls with
            content := (mkChunk p o n ls).content ++ "\n" } := by
  rw [mkChunk, mkChunk]
  rw [DiffChunk.mk.injEq]
  refine ⟨rfl, rfl, rfl, rfl, ?_, ?_, ?_, ?_⟩
  · rw [joinNl_append_empty ls h]
    rfl
  all_goals
    rw [List.filter_append]
    simp [pyStartsWith, List.isPrefixOf]

/-- Map the last chunk of an output sequence to the same chunk with one
newline appended to its content; every other chunk is untouched. -/
def addTrailingNewlineToLast : List DiffChunk → List DiffChunk
  | [] => []
  | [c] => [{ c with content := c.content ++ "\n" }]
  | c :: cs => c :: addTrailingNewlineToLast cs

theorem addTrailingNewlineToLast_append (xs : List DiffChunk) (c : DiffChunk) :
    addTrailingNewlineToLast (xs ++ [c])
      = xs ++ [{ c with content := c.content ++ "\n" }] := by
  induction xs with
  | nil => rfl
  | cons x rest ih =>
    cases rest with
    | nil => rfl
    | cons y rest2 =>
      calc addTrailingNewlineToLast ((x :: y :: rest2) ++ [c])
          = x :: addTrailingNewlineToLast ((y :: rest2) ++ [c]) := rfl
        _ = x :: ((y :: rest2) ++ [{ c with content := c.content ++ "\n" }]) := by
              rw [ih]
        _ = (x :: y :: rest2) ++ [{ c with content := c.content ++ "\n" }] := rfl

/-- The scanner state after the line loop of `parse_diff`, before the final
flush. -/
def scanState (raw : String) (sup : Option (List String)) : ParseState :=
  (splitChar '\x0a' raw.data).foldl (parseStep sup) initState

/-- C10: for an input whose scan ends inside a hunk of an active file,
appending one trailing newline leaves the number of chunks and every field of
every chunk unchanged, except the final chunk's content, which gains exactly
one trailing newline (the empty line after the final newline is buffered as a
body line that joins none of the three classification lists). -/
theorem c10_trailing_newline (raw : String)
    (h1 : truthyFile (scanState raw none).current_file = true)
    (h2 : (scanState raw none).in_hunk = true)
    (h3 : (scanState raw none).current_hunks ≠ []) :
    parse_diff (raw ++ "\n") none
      = addTrailingNewlineToLast (parse_diff raw none) := by
  obtain ⟨p, hp, hpne⟩ :
      ∃ p, (scanState raw none).current_file = some p ∧ p ≠ [] := by
    cases hc : (scanState raw none).current_file with
    | none =>
      rw [hc, truthyFile] at h1
      exact absurd h1 Bool.false_ne_true
    | some q =>
      refine ⟨q, rfl, ?_⟩
      rw [hc, truthyFile] at h1
      simpa using h1
  have hdata : (raw ++ "\n").data = raw.data ++ ['\x0a'] := by
    cases raw
    rfl
  have hsplit : splitChar '\x0a' (raw ++ "\n").data
      = splitChar '\x0a' raw.data ++ [[]] := by
    rw [hdata, splitChar_append_sep]
  have hstep : parseStep none (scanState raw none) []
      = { scanState raw none with
            current_hunks := (scanState raw none).current_hunks ++ [[]] } := by
    refine parseStep_body (by decide) (by decide) (by decide) ?_
    rw [h1, h2]
    rfl
  rw [parse_diff, parse_diff_lines, hsplit, List.foldl_append,
    show List.foldl (parseStep none) initState (splitChar '\x0a' raw.data)
      = scanState raw none from rfl,
    List.foldl_cons, List.foldl_nil, hstep, finishParse,
    flushStep_run (s := { scanState raw none with
      current_hunks := (scanState raw none).current_hunks ++ [[]] })
      (p := p) hp hpne (by simp),
    if_pos (show passesFilter none _ = true from rfl)]
  rw [show parse_diff raw none = finishParse none (scanState raw none) from rfl,
    finishParse, flushStep_run hp hpne h3,
    if_pos (show passesFilter none _ = true from rfl)]
  dsimp only
  rw [addTrailingNewlineToLast_append]
  rw [mkChunk_append_empty p _ _ _ h3]

/-- C10 witness: appending a newline to a concrete diff ending in a hunk body
line only appends a newline to the final chunk's content. -/
theorem c10_trailing_newline_witness :
    parse_diff
        ("diff --git a/app.py b/app.py\n@@ -10,3 +10,3 @@\n context\n-removed\n+added"
          ++ "\n") none
      = addTrailingNewlineToLast (parse_diff
          "diff --git a/app.py b/app.py\n@@ -10,3 +10,3 @@\n context\n-removed\n+added"
          none) :=
  c10_trailing_newline _ (by decide) (by decide) (by decide)

/-- C8: `detect_language` is pure and total on path strings; a path whose
lower-cased extension is a key of the fixed table maps to that key's language
tag (two extensions may share a tag, as `.js` and `.jsx` do), and a path whose
lower-cased extension is not a key (including pathless or extensionless
inputs) maps to the sentinel `"unknown"`. -/
theorem c8_detect_language_table :
    (∀ (p : String) (ext : List Char) (tag : String),
      (ext, tag) ∈ EXTENSION_MAP →
      (pathSuffix p.data).map Char.toLower = ext →
      detect_language p = tag) ∧
    (∀ p : String,
      EXTENSION_MAP.lookup ((pathSuffix p.data).map Char.toLower) = none →
      detect_language p = "unknown") ∧
    detect_language "a.js" = "javascript" ∧
    detect_language "b.jsx" = "javascript" ∧
    detect_language "C.PY" = "python" ∧
    detect_language "noext" = "unknown" ∧
    detect_language "x.xyz" = "unknown" ∧
    detect_language "" = "unknown" := by
  refine ⟨?_, ?_, by decide, by decide, by decide, by decide, by decide,
    by decide⟩
  · intro p ext tag hmem hsuf
    have hlk : EXTENSION_MAP.lookup ext = some tag := by
      fin_cases hmem <;> rfl
    rw [detect_language, hsuf, hlk]
    rfl
  · intro p hlook
    rw [detect_language, hlook]
    rfl

/-- C8 witness: the table rule applied at the concrete path `Main.JS` and the
entry mapping `.js` to `javascript`. -/
theorem c8_detect_language_table_witness :
    detect_language "Main.JS" = "javascript" :=
  c8_detect_language_table.1 "Main.JS" ".js".toList "javascript" (by decide)
    (by decide)
